import Mathlib

/-!
Shallow embedding of `src/main.rs` of the wordle-pattern-maker repository.

Strings are modelled as `List Char`; the text blocks consumed by
`load_wordlist` and `parse_query_pattern` are modelled as lists of lines
(`List (List Char)`), since both Rust functions begin by splitting on
newlines.  Imperative index loops become structural recursion / folds with
the mutable state threaded explicitly.  The Rust `From<char>` conversions
panic on unrecognized characters; they are embedded as `Option`-returning
functions where `none` models the panic.  `Char.toUpper`, `Char.toLower`
and `Char.isAlpha` in Lean core are exactly the ASCII maps used by the
Rust code (`to_ascii_uppercase`, `to_lowercase` restricted to the ASCII
range that survives the alphabetic filter, `is_ascii_alphabetic`).
-/

/-- The three feedback states of `enum PatternState` (main.rs lines 4-9). -/
inductive PatternState : Type where
  | Green  : PatternState
  | Yellow : PatternState
  | Grey   : PatternState
deriving DecidableEq, Repr

/-- Embedding of `impl From<char> for PatternState` (main.rs lines 11-20).
The Rust match panics on any character other than G/Y/X (after ASCII
uppercasing); the panic is modelled by `none`. -/
def PatternState.fromChar (c : Char) : Option PatternState :=
  if c.toUpper = 'G' then some PatternState.Green
  else if c.toUpper = 'Y' then some PatternState.Yellow
  else if c.toUpper = 'X' then some PatternState.Grey
  else none

/-- Embedding of `impl fmt::Display for PatternState` (main.rs lines 22-30):
one character per state. -/
def PatternState.toChar : PatternState → Char
  | PatternState.Green => 'G'
  | PatternState.Yellow => 'Y'
  | PatternState.Grey => 'X'

/-- The five query symbols of `enum QueryPatternState` (main.rs lines 33-38). -/
inductive QueryPatternState : Type where
  | Base     : PatternState → QueryPatternState
  | AnyValid : QueryPatternState
  | Any      : QueryPatternState
deriving DecidableEq, Repr

/-- Embedding of `impl From<char> for QueryPatternState` (main.rs lines
40-48): `?` and `*` are recognized directly, anything else is delegated to
`PatternState::from` (whose panic is `none` here). -/
def QueryPatternState.fromChar (c : Char) : Option QueryPatternState :=
  if c.toUpper = '?' then some QueryPatternState.AnyValid
  else if c.toUpper = '*' then some QueryPatternState.Any
  else (PatternState.fromChar c.toUpper).map QueryPatternState.Base

/-- Embedding of `QueryPatternState::possible_states` (main.rs lines 60-68). -/
def QueryPatternState.possible_states : QueryPatternState → List PatternState
  | QueryPatternState.Base st => [st]
  | QueryPatternState.AnyValid => [PatternState.Green, PatternState.Yellow]
  | QueryPatternState.Any =>
      [PatternState.Green, PatternState.Yellow, PatternState.Grey]

/-- The sentinel the Rust code writes over consumed letters
(`'\0'`, main.rs lines 231-232 and 240). -/
def consumedChar : Char := Char.ofNat 0

/-- First pass of `calculate_pattern` (main.rs lines 227-234): positions
where guess and solution agree become `Green` and both letters are
overwritten with the `'\0'` sentinel.  The Rust loop runs over indices
`0..word_len` updating three vectors in place; since iteration `i` reads
and writes only position `i`, the loop is the pointwise recursion below.
Returns (guess chars, solution chars, pattern) after the pass. -/
def firstPass : List Char → List Char → List Char × List Char × List PatternState
  | g :: gs, s :: ss =>
      let rest := firstPass gs ss
      if g = s then
        (consumedChar :: rest.1, consumedChar :: rest.2.1,
          PatternState.Green :: rest.2.2)
      else
        (g :: rest.1, s :: rest.2.1, PatternState.Grey :: rest.2.2)
  | _, _ => ([], [], [])

/-- Second pass of `calculate_pattern` (main.rs lines 237-244): for each
unconsumed guess letter, the first unconsumed equal solution letter (found
with `iter().position`, embedded as `List.findIdx?`) is consumed and the
position becomes `Yellow`.  The loop walks the guess and pattern in
lockstep while the solution-chars vector is threaded as state.  Returns
(pattern, solution chars) after the pass. -/
def secondPass : List Char → List PatternState → List Char →
    List PatternState × List Char
  | g :: gs, p :: ps, s =>
      if g ≠ consumedChar then
        match s.findIdx? (fun c => c == g) with
        | some pos =>
            let rest := secondPass gs ps (s.set pos consumedChar)
            (PatternState.Yellow :: rest.1, rest.2)
        | none =>
            let rest := secondPass gs ps s
            (p :: rest.1, rest.2)
      else
        let rest := secondPass gs ps s
        (p :: rest.1, rest.2)
  | _, _, s => ([], s)

/-- Embedding of `calculate_pattern` (main.rs lines 220-247): the pattern
starts as all-`Grey` (`vec![Grey; word_len]`), pass one marks the greens,
pass two the yellows. -/
def calculate_pattern (guess solution : List Char) : List PatternState :=
  let afterFirst := firstPass guess solution
  (secondPass afterFirst.1 afterFirst.2.2 afterFirst.2.1).1

/-- Embedding of `expand_query_pattern` (main.rs lines 197-217): starting
from the single empty pattern, each query symbol extends every partial
result by each of its possible states (outer loop over current results,
inner loop over possible states, appending at the end). -/
def expand_query_pattern (pattern : List QueryPatternState) :
    List (List PatternState) :=
  pattern.foldl
    (fun results qs =>
      results.flatMap (fun r => qs.possible_states.map (fun st => r ++ [st])))
    [[]]

/-- Embedding of Rust `str::trim` on a line: surrounding whitespace
removed from both ends. -/
def trimLine (l : List Char) : List Char :=
  ((l.dropWhile Char.isWhitespace).reverse.dropWhile Char.isWhitespace).reverse

/-- Parsing of one query-pattern line, the
`line.chars().map(QueryPatternState::from).collect()` step of
`parse_query_pattern` (main.rs line 191); a panic anywhere in the line
(invalid character) is modelled by `none`. -/
def parseLine : List Char → Option (List QueryPatternState)
  | [] => some []
  | c :: cs =>
      match QueryPatternState.fromChar c, parseLine cs with
      | some q, some qs => some (q :: qs)
      | _, _ => none

/-- Sequencing of `parseLine` over all lines: a panic on any line aborts
the whole `collect` in `parse_query_pattern`. -/
def parseLines : List (List Char) → Option (List (List QueryPatternState))
  | [] => some []
  | l :: ls =>
      match parseLine l, parseLines ls with
      | some q, some qs => some (q :: qs)
      | _, _ => none

/-- Embedding of `parse_query_pattern` (main.rs lines 186-193): each line
is trimmed, empty lines are dropped, and every remaining line is parsed
character by character; `none` models the panic on an invalid character. -/
def parse_query_pattern (input : List (List Char)) :
    Option (List (List QueryPatternState)) :=
  parseLines ((input.map trimLine).filter (fun l => !l.isEmpty))

/-- Embedding of the filtering in `load_wordlist` (main.rs lines 169-177)
on the already-read file content, given as its list of lines: each line is
trimmed and lower-cased, and kept only when its length equals
`word_length` and all its characters are ASCII alphabetic.  The only
error case of the Rust function is the file read itself; the filtering
never errors. -/
def load_wordlist (content : List (List Char)) (word_length : Nat) :
    List (List Char) :=
  (content.map (fun l => (trimLine l).map Char.toLower)).filter
    (fun s => s.length == word_length && s.all Char.isAlpha)

/-- One `pattern_map.entry(pattern).or_default().push(word)` step of the
index construction (main.rs line 123), on the map modelled as an
association list: append to the existing bucket, or create a new one. -/
def insertWord (m : List (List PatternState × List (List Char)))
    (sig : List PatternState) (w : List Char) :
    List (List PatternState × List (List Char)) :=
  match m with
  | [] => [(sig, [w])]
  | e :: rest =>
      if e.1 = sig then (e.1, e.2 ++ [w]) :: rest
      else e :: insertWord rest sig w

/-- The index-construction loop of `main` (main.rs lines 120-124): every
word of the word list is pushed into the bucket of its computed pattern. -/
def build_pattern_map (wordlist : List (List Char)) (solution : List Char) :
    List (List PatternState × List (List Char)) :=
  wordlist.foldl (fun m w => insertWord m (calculate_pattern w solution) w) []

/-- Embedding of `pattern_map.get(&pattern)` (main.rs line 135). -/
def mapGet (m : List (List PatternState × List (List Char)))
    (sig : List PatternState) : Option (List (List Char)) :=
  (m.find? (fun e => decide (e.1 = sig))).map (fun e => e.2)

/-- The per-query resolution loop of `main` (main.rs lines 130-139): the
query is expanded, each concrete pattern is looked up, and the non-empty
buckets are concatenated in expansion order. -/
def resolve_query (query : List QueryPatternState)
    (m : List (List PatternState × List (List Char))) : List (List Char) :=
  (expand_query_pattern query).foldl
    (fun sols sig =>
      match mapGet m sig with
      | some ws => sols ++ ws
      | none => sols)
    []

/-- Mirror of the per-symbol extension step inside `expand_query_pattern`
(main.rs lines 204-214), named so the fold can be reasoned about one step
at a time. -/
def expandStep (results : List (List PatternState)) (qs : QueryPatternState) :
    List (List PatternState) :=
  results.flatMap (fun r => qs.possible_states.map (fun st => r ++ [st]))

/-- Specification-side counter: the number of positions whose feedback is
`Green` or `Yellow` and whose guess letter is `c`, for a pattern paired
positionwise with the guess that produced it. -/
def markedCount (guess : List Char) (pat : List PatternState) (c : Char) : Nat :=
  (pat.zip guess).countP
    (fun x =>
      decide ((x.1 = PatternState.Green ∨ x.1 = PatternState.Yellow) ∧ x.2 = c))

lemma firstPass_diag (w : List Char) :
    firstPass w w =
      (List.replicate w.length consumedChar,
        List.replicate w.length consumedChar,
        List.replicate w.length PatternState.Green) := by
  induction w with
  | nil => rfl
  | cons c cs ih => simp [firstPass, ih, List.replicate_succ]

lemma secondPass_consumed (p : List PatternState) (s : List Char) :
    secondPass (List.replicate p.length consumedChar) p s = (p, s) := by
  induction p generalizing s with
  | nil => rfl
  | cons q qs ih => simp [List.replicate_succ, secondPass, ih]

/-- Claim C6: for every word `w`, `calculate_pattern w w` is the all-Green
signature of length `w.length` (reflexivity). -/
theorem calculate_pattern_refl (w : List Char) :
    calculate_pattern w w = List.replicate w.length PatternState.Green := by
  have h := secondPass_consumed (List.replicate w.length PatternState.Green)
    (List.replicate w.length consumedChar)
  rw [List.length_replicate] at h
  simp [calculate_pattern, firstPass_diag, h]

/-- Claim C9: with word list `["apple","angle"]` and solution `"apple"`,
resolving the all-Absent query pattern `XXXXX` yields the empty result,
and indeed neither word's signature against `"apple"` is all-Absent. -/
theorem end_to_end_all_absent_empty :
    resolve_query (List.replicate 5 (QueryPatternState.Base PatternState.Grey))
        (build_pattern_map [['a','p','p','l','e'], ['a','n','g','l','e']]
          ['a','p','p','l','e']) = [] ∧
      calculate_pattern ['a','p','p','l','e'] ['a','p','p','l','e'] ≠
        List.replicate 5 PatternState.Grey ∧
      calculate_pattern ['a','n','g','l','e'] ['a','p','p','l','e'] ≠
        List.replicate 5 PatternState.Grey := by
  refine ⟨?_, ?_, ?_⟩ <;> decide

lemma expand_eq_foldl (pattern : List QueryPatternState) :
    expand_query_pattern pattern = pattern.foldl expandStep [[]] := rfl

lemma possible_states_nodup (q : QueryPatternState) : q.possible_states.Nodup := by
  cases q with
  | Base st => cases st <;> decide
  | AnyValid => decide
  | Any => decide

lemma concat_eq_concat {r₁ r₂ : List α} {a b : α}
    (h : r₁ ++ [a] = r₂ ++ [b]) : r₁ = r₂ ∧ a = b := by
  have hl : r₁.length = r₂.length := by
    have := congrArg List.length h; simp at this; omega
  have := List.append_inj h hl
  exact ⟨this.1, by simpa using this.2⟩

lemma expandStep_nodup {results : List (List PatternState)}
    (h : results.Nodup) (qs : QueryPatternState) : (expandStep results qs).Nodup := by
  rw [expandStep, List.nodup_flatMap]
  constructor
  · intro r _
    exact (possible_states_nodup qs).map (fun a b hab => (concat_eq_concat hab).2)
  · refine h.imp ?_
    intro r₁ r₂ hne
    rw [Function.onFun, List.disjoint_left]
    rintro x hx₁ hx₂
    simp only [List.mem_map] at hx₁ hx₂
    obtain ⟨a, _, rfl⟩ := hx₁
    obtain ⟨b, _, hab⟩ := hx₂
    exact hne (concat_eq_concat hab).1.symm

lemma expand_aux_nodup (pattern : List QueryPatternState)
    (acc : List (List PatternState)) (h : acc.Nodup) :
    (pattern.foldl expandStep acc).Nodup := by
  induction pattern generalizing acc with
  | nil => exact h
  | cons q qs ih => exact ih _ (expandStep_nodup h q)

lemma expand_aux_length (pattern : List QueryPatternState)
    (acc : List (List PatternState)) :
    (pattern.foldl expandStep acc).length =
      acc.length * (pattern.map (fun q => q.possible_states.length)).prod := by
  induction pattern generalizing acc with
  | nil => simp
  | cons q qs ih =>
    rw [List.foldl_cons, ih]
    have : (expandStep acc q).length = acc.length * q.possible_states.length := by
      rw [expandStep, List.length_flatMap]
      have hc : (List.length ∘ fun r => List.map (fun st => r ++ [st]) q.possible_states)
          = fun _ : List PatternState => q.possible_states.length := by
        funext r; simp
      rw [← List.map_map, List.map_map, hc, List.map_const', List.sum_replicate,
        smul_eq_mul]
    rw [this]
    simp [mul_assoc]

lemma expand_aux_mem_length (pattern : List QueryPatternState)
    (acc : List (List PatternState)) (n : Nat)
    (h : ∀ r ∈ acc, r.length = n) :
    ∀ x ∈ pattern.foldl expandStep acc, x.length = n + pattern.length := by
  induction pattern generalizing acc n with
  | nil => simpa using h
  | cons q qs ih =>
    intro x hx
    rw [List.foldl_cons] at hx
    have hstep : ∀ r ∈ expandStep acc q, r.length = n + 1 := by
      intro r hr
      simp only [expandStep, List.mem_flatMap, List.mem_map] at hr
      obtain ⟨r₀, hr₀, st, _, rfl⟩ := hr
      simp [h r₀ hr₀]
    have := ih _ _ hstep x hx
    simpa [Nat.add_assoc, Nat.add_comm 1] using this

/-- Claim C2: expanding an all-Wildcard query pattern of length `L`
produces exactly `3 ^ L` signatures, pairwise distinct, each of length
`L`. -/
theorem expand_all_wildcard_spec (L : Nat) :
    (expand_query_pattern (List.replicate L QueryPatternState.Any)).length = 3 ^ L ∧
      (expand_query_pattern (List.replicate L QueryPatternState.Any)).Nodup ∧
      ∀ sig ∈ expand_query_pattern (List.replicate L QueryPatternState.Any),
        sig.length = L := by
  refine ⟨?_, ?_, ?_⟩
  · rw [expand_eq_foldl, expand_aux_length]
    simp [QueryPatternState.possible_states, List.map_replicate, List.prod_replicate]
  · rw [expand_eq_foldl]
    exact expand_aux_nodup _ _ (by decide)
  · intro sig hsig
    rw [expand_eq_foldl] at hsig
    have := expand_aux_mem_length (List.replicate L QueryPatternState.Any) [[]] 0
      (by simp) sig hsig
    simpa using this

-- C3 machinery
lemma expand_base (sig : List PatternState) (acc : List (List PatternState)) :
    (sig.map QueryPatternState.Base).foldl expandStep acc =
      acc.map (fun r => r ++ sig) := by
  induction sig generalizing acc with
  | nil => simp
  | cons st sig' ih =>
    rw [List.map_cons, List.foldl_cons, ih]
    have : expandStep acc (QueryPatternState.Base st) = acc.map (fun r => r ++ [st]) := by
      rw [expandStep]
      induction acc with
      | nil => rfl
      | cons r acc' ihacc => simp_all [QueryPatternState.possible_states]
    rw [this, List.map_map]
    simp [Function.comp]

lemma fromChar_toChar (st : PatternState) :
    QueryPatternState.fromChar st.toChar = some (QueryPatternState.Base st) := by
  cases st <;> decide

/-- Claim C3: rendering a signature to its character form (G/Y/X),
re-parsing each character as a query symbol, and expanding the resulting
pattern yields exactly the singleton list holding the original
signature. -/
theorem signature_roundtrip (sig : List PatternState) :
    parseLine (sig.map PatternState.toChar) =
        some (sig.map QueryPatternState.Base) ∧
      expand_query_pattern (sig.map QueryPatternState.Base) = [sig] := by
  constructor
  · induction sig with
    | nil => rfl
    | cons st sig' ih => simp [parseLine, fromChar_toChar, ih]
  · rw [expand_eq_foldl, expand_base]
    simp

lemma markedCount_nil (guess : List Char) (c : Char) :
    markedCount guess [] c = 0 := by
  simp [markedCount]

lemma markedCount_cons (g : Char) (gs : List Char) (p : PatternState)
    (ps : List PatternState) (c : Char) :
    markedCount (g :: gs) (p :: ps) c =
      markedCount gs ps c +
        (if (p = PatternState.Green ∨ p = PatternState.Yellow) ∧ g = c then 1
          else 0) := by
  simp [markedCount, List.countP_cons]

lemma firstPass_cons (x a : Char) (xs as : List Char) :
    firstPass (x :: xs) (a :: as) =
      if x = a then
        (consumedChar :: (firstPass xs as).1,
          consumedChar :: (firstPass xs as).2.1,
          PatternState.Green :: (firstPass xs as).2.2)
      else
        (x :: (firstPass xs as).1, a :: (firstPass xs as).2.1,
          PatternState.Grey :: (firstPass xs as).2.2) := by
  rw [firstPass]

lemma firstPass_budget (g s : List Char) (h : g.length = s.length)
    (c : Char) (hc : c ≠ consumedChar) :
    markedCount g (firstPass g s).2.2 c + (firstPass g s).2.1.count c =
      s.count c := by
  induction g generalizing s with
  | nil =>
    cases s with
    | nil => simp [firstPass, markedCount]
    | cons a as => simp at h
  | cons x xs ih =>
    cases s with
    | nil => simp at h
    | cons a as =>
      simp only [List.length_cons, Nat.add_right_cancel_iff] at h
      have := ih as h
      rw [firstPass_cons]
      by_cases hxa : x = a
      · rw [if_pos hxa]
        subst hxa
        simp only [markedCount_cons, List.count_cons, beq_iff_eq]
        split_ifs <;> first | omega | simp_all
      · rw [if_neg hxa]
        simp only [markedCount_cons, List.count_cons, beq_iff_eq]
        split_ifs <;> first | omega | simp_all

lemma firstPass_green_budget (g s : List Char) (c : Char) :
    markedCount g (firstPass g s).2.2 c ≤ s.count c := by
  induction g generalizing s with
  | nil =>
    cases s <;> simp [firstPass, markedCount]
  | cons x xs ih =>
    cases s with
    | nil => simp [firstPass, markedCount]
    | cons a as =>
      have := ih as
      rw [firstPass_cons]
      by_cases hxa : x = a
      · rw [if_pos hxa]
        subst hxa
        simp only [markedCount_cons, List.count_cons, beq_iff_eq]
        split_ifs <;> first | omega | simp_all
      · rw [if_neg hxa]
        simp only [markedCount_cons, List.count_cons, beq_iff_eq]
        split_ifs <;> first | omega | simp_all

lemma firstPass_guess_rel (g s : List Char) (h : g.length = s.length) :
    List.Forall₂ (fun a b => a ≠ consumedChar → a = b) (firstPass g s).1 g := by
  induction g generalizing s with
  | nil =>
    cases s with
    | nil => simp [firstPass]
    | cons a as => simp at h
  | cons x xs ih =>
    cases s with
    | nil => simp at h
    | cons a as =>
      simp only [List.length_cons, Nat.add_right_cancel_iff] at h
      rw [firstPass_cons]
      by_cases hxa : x = a
      · rw [if_pos hxa]
        exact List.Forall₂.cons (fun hne => absurd rfl hne) (ih as h)
      · rw [if_neg hxa]
        exact List.Forall₂.cons (fun _ => rfl) (ih as h)

lemma secondPass_nil (p : List PatternState) (s : List Char) :
    secondPass [] p s = ([], s) := by
  cases p <;> rfl

lemma secondPass_nilp (g : Char) (gs : List Char) (s : List Char) :
    secondPass (g :: gs) [] s = ([], s) := rfl

lemma secondPass_cons_consumed (g : Char) (gs : List Char) (p : PatternState)
    (ps : List PatternState) (s : List Char) (hg : g = consumedChar) :
    secondPass (g :: gs) (p :: ps) s =
      (p :: (secondPass gs ps s).1, (secondPass gs ps s).2) := by
  rw [secondPass]
  simp [hg]

lemma secondPass_cons_none (g : Char) (gs : List Char) (p : PatternState)
    (ps : List PatternState) (s : List Char) (hg : g ≠ consumedChar)
    (hf : s.findIdx? (fun c => c == g) = none) :
    secondPass (g :: gs) (p :: ps) s =
      (p :: (secondPass gs ps s).1, (secondPass gs ps s).2) := by
  rw [secondPass]
  simp [hg, hf]

lemma secondPass_cons_some (g : Char) (gs : List Char) (p : PatternState)
    (ps : List PatternState) (s : List Char) (pos : Nat)
    (hg : g ≠ consumedChar)
    (hf : s.findIdx? (fun c => c == g) = some pos) :
    secondPass (g :: gs) (p :: ps) s =
      (PatternState.Yellow :: (secondPass gs ps (s.set pos consumedChar)).1,
        (secondPass gs ps (s.set pos consumedChar)).2) := by
  rw [secondPass]
  simp [hg, hf]

lemma findIdx?_getElem (s : List Char) (g : Char) (pos : Nat)
    (h : s.findIdx? (fun c => c == g) = some pos) : s[pos]? = some g := by
  induction s generalizing pos with
  | nil => simp [List.findIdx?_nil] at h
  | cons a as ih =>
    rw [List.findIdx?_cons] at h
    by_cases hag : (a == g) = true
    · rw [if_pos hag] at h
      cases h
      simpa using (beq_iff_eq.mp hag)
    · rw [if_neg hag, List.findIdx?_succ] at h
      rw [Option.map_eq_some'] at h
      obtain ⟨pos', hpos', rfl⟩ := h
      simpa using ih pos' hpos'

lemma count_set_of_getElem (s : List Char) (pos : Nat) (d c e : Char)
    (hd : d ≠ c) (h : s[pos]? = some e) :
    (s.set pos d).count c + (if e = c then 1 else 0) = s.count c := by
  induction s generalizing pos with
  | nil => simp at h
  | cons a as ih =>
    cases pos with
    | zero =>
      simp only [List.getElem?_cons_zero, Option.some.injEq] at h
      subst h
      simp only [List.set_cons_zero, List.count_cons, beq_iff_eq]
      split_ifs <;> first | omega | simp_all
    | succ n =>
      simp only [List.getElem?_cons_succ] at h
      simp only [List.set_cons_succ, List.count_cons, beq_iff_eq]
      have := ih n h
      split_ifs at this ⊢ <;> omega

lemma secondPass_budget (g G : List Char)
    (hrel : List.Forall₂ (fun a b => a ≠ consumedChar → a = b) g G)
    (p : List PatternState) (s : List Char)
    (c : Char) (hc : c ≠ consumedChar) :
    markedCount G (secondPass g p s).1 c + (secondPass g p s).2.count c ≤
      markedCount G p c + s.count c := by
  induction hrel generalizing p s with
  | nil =>
    simp [secondPass_nil, markedCount]
  | @cons a b g' G' hab hrest ih =>
    cases p with
    | nil =>
      simp [secondPass_nilp, markedCount]
    | cons ph pt =>
      by_cases ha : a = consumedChar
      · rw [secondPass_cons_consumed a g' ph pt s ha]
        simp only [markedCount_cons]
        have := ih pt s
        split_ifs <;> omega
      · have hab' : a = b := hab ha
        subst hab'
        cases hf : s.findIdx? (fun x => x == a) with
        | none =>
          rw [secondPass_cons_none a g' ph pt s ha hf]
          simp only [markedCount_cons]
          have := ih pt s
          split_ifs <;> omega
        | some pos =>
          rw [secondPass_cons_some a g' ph pt s pos ha hf]
          have hget := findIdx?_getElem s a pos hf
          have hcount := count_set_of_getElem s pos consumedChar c a
            (Ne.symm hc) hget
          have := ih pt (s.set pos consumedChar)
          simp only [markedCount_cons]
          split_ifs at hcount ⊢ <;> first | omega | simp_all

lemma secondPass_marked_consumed (g G : List Char)
    (hrel : List.Forall₂ (fun a b => a ≠ consumedChar → a = b) g G)
    (p : List PatternState) (s : List Char) :
    markedCount G (secondPass g p s).1 consumedChar =
      markedCount G p consumedChar := by
  induction hrel generalizing p s with
  | nil =>
    simp [secondPass_nil, markedCount]
  | @cons a b g' G' hab hrest ih =>
    cases p with
    | nil =>
      simp [secondPass_nilp, markedCount]
    | cons ph pt =>
      by_cases ha : a = consumedChar
      · rw [secondPass_cons_consumed a g' ph pt s ha]
        simp only [markedCount_cons]
        have := ih pt s
        split_ifs <;> omega
      · have hab' : a = b := hab ha
        subst hab'
        cases hf : s.findIdx? (fun x => x == a) with
        | none =>
          rw [secondPass_cons_none a g' ph pt s ha hf]
          simp only [markedCount_cons]
          have := ih pt s
          split_ifs <;> omega
        | some pos =>
          rw [secondPass_cons_some a g' ph pt s pos ha hf]
          simp only [markedCount_cons]
          have := ih pt (s.set pos consumedChar)
          split_ifs <;> first | omega | simp_all

/-- Claim C1: for every pair of equal-length guess and solution words and
every letter value `c`, the combined number of Green (Exact) and Yellow
(Present) positions whose guess letter is `c` in the signature computed
by `calculate_pattern` never exceeds the number of occurrences of `c` in
the solution. -/
theorem calculate_pattern_letter_budget (guess solution : List Char)
    (h : guess.length = solution.length) (c : Char) :
    markedCount guess (calculate_pattern guess solution) c ≤
      solution.count c := by
  have hrel := firstPass_guess_rel guess solution h
  by_cases hc : c = consumedChar
  · subst hc
    simp only [calculate_pattern]
    rw [secondPass_marked_consumed (firstPass guess solution).1 guess hrel
      (firstPass guess solution).2.2 (firstPass guess solution).2.1]
    exact firstPass_green_budget guess solution consumedChar
  · have h1 := firstPass_budget guess solution h c hc
    have h2 := secondPass_budget (firstPass guess solution).1 guess hrel
      (firstPass guess solution).2.2 (firstPass guess solution).2.1 c hc
    simp only [calculate_pattern]
    omega

/-- Witness for C1 at the spec's own example: guess `"assss"` against
solution `"sassy"`. -/
theorem calculate_pattern_letter_budget_witness :
    markedCount ['a','s','s','s','s']
        (calculate_pattern ['a','s','s','s','s'] ['s','a','s','s','y']) 's' ≤
      (['s','a','s','s','y'] : List Char).count 's' :=
  calculate_pattern_letter_budget ['a','s','s','s','s'] ['s','a','s','s','y']
    (by decide) 's'

/-- Claim C7: `load_wordlist` retains exactly those input lines that,
after trimming and lower-casing, have the required length and consist
only of (ASCII) alphabetic characters; every other line is dropped
(the filtering itself has no error outcome). -/
theorem load_wordlist_mem (content : List (List Char)) (word_length : Nat)
    (w : List Char) :
    w ∈ load_wordlist content word_length ↔
      ∃ l ∈ content, w = (trimLine l).map Char.toLower ∧
        w.length = word_length ∧ ∀ c ∈ w, c.isAlpha := by
  simp only [load_wordlist, List.mem_filter, List.mem_map, Bool.and_eq_true,
    beq_iff_eq, List.all_eq_true]
  constructor
  · rintro ⟨⟨l, hl, rfl⟩, hlen, halpha⟩
    exact ⟨l, hl, rfl, hlen, halpha⟩
  · rintro ⟨l, hl, rfl, hlen, halpha⟩
    exact ⟨⟨l, hl, rfl⟩, hlen, halpha⟩

lemma mapGet_insertWord (m : List (List PatternState × List (List Char)))
    (sig sig' : List PatternState) (w : List Char) :
    mapGet (insertWord m sig w) sig' =
      if sig' = sig then some ((mapGet m sig).getD [] ++ [w])
      else mapGet m sig' := by
  induction m with
  | nil =>
    simp only [insertWord, mapGet, List.find?]
    by_cases h : sig' = sig
    · subst h
      simp
    · have h2 : ¬ sig = sig' := fun hss => h hss.symm
      simp [h, h2]
  | cons e rest ih =>
    simp only [insertWord]
    by_cases he : e.1 = sig
    · rw [if_pos he]
      simp only [mapGet, List.find?]
      by_cases he' : e.1 = sig'
      · have : sig' = sig := he' ▸ he
        simp_all
      · have hne : ¬ sig' = sig := fun hss => he' (hss ▸ he)
        simp_all
    · rw [if_neg he]
      simp only [mapGet, List.find?] at *
      by_cases he' : e.1 = sig'
      · have hne : ¬ sig' = sig := fun hss => he (he'.trans hss)
        simp_all
      · simp_all

lemma build_bucket_aux (ws : List (List Char)) (solution : List Char)
    (m₀ : List (List PatternState × List (List Char))) (sig : List PatternState) :
    (mapGet (ws.foldl
        (fun m w => insertWord m (calculate_pattern w solution) w) m₀) sig).getD [] =
      (mapGet m₀ sig).getD [] ++
        ws.filter (fun w => decide (calculate_pattern w solution = sig)) := by
  induction ws generalizing m₀ with
  | nil => simp
  | cons w ws' ih =>
    rw [List.foldl_cons, ih, mapGet_insertWord]
    by_cases hsig : sig = calculate_pattern w solution
    · rw [if_pos hsig]
      simp [List.filter_cons, hsig.symm, List.append_assoc]
    · rw [if_neg hsig]
      have : ¬ calculate_pattern w solution = sig := fun hx => hsig hx.symm
      simp [List.filter_cons, this]

lemma build_bucket (wordlist : List (List Char)) (solution : List Char)
    (sig : List PatternState) :
    (mapGet (build_pattern_map wordlist solution) sig).getD [] =
      wordlist.filter (fun w => decide (calculate_pattern w solution = sig)) := by
  rw [build_pattern_map, build_bucket_aux]
  simp [mapGet, List.find?]

/-- Claim C8: after index construction every word of the word list lies
in the bucket of its own computed signature, with multiplicity equal to
its multiplicity in the list, and lies in no other signature's bucket. -/
theorem word_in_unique_bucket (wordlist : List (List Char))
    (solution : List Char) (w : List Char) (hw : w ∈ wordlist) :
    w ∈ (mapGet (build_pattern_map wordlist solution)
          (calculate_pattern w solution)).getD [] ∧
      ((mapGet (build_pattern_map wordlist solution)
          (calculate_pattern w solution)).getD []).count w = wordlist.count w ∧
      ∀ sig, sig ≠ calculate_pattern w solution →
        w ∉ (mapGet (build_pattern_map wordlist solution) sig).getD [] := by
  refine ⟨?_, ?_, ?_⟩
  · rw [build_bucket]
    exact List.mem_filter.mpr ⟨hw, by simp⟩
  · rw [build_bucket]
    rw [List.count_filter (by simp)]
  · intro sig hsig hmem
    rw [build_bucket] at hmem
    have := (List.mem_filter.mp hmem).2
    simp at this
    exact hsig this.symm

/-- Witness for C8 at the concrete word list `["ab"]` with solution
`"ab"`. -/
theorem word_in_unique_bucket_witness :
    (['a','b'] : List Char) ∈
        (mapGet (build_pattern_map [['a','b']] ['a','b'])
          (calculate_pattern ['a','b'] ['a','b'])).getD [] ∧
      ((mapGet (build_pattern_map [['a','b']] ['a','b'])
          (calculate_pattern ['a','b'] ['a','b'])).getD []).count ['a','b'] =
        ([['a','b']] : List (List Char)).count ['a','b'] ∧
      ∀ sig, sig ≠ calculate_pattern ['a','b'] ['a','b'] →
        (['a','b'] : List Char) ∉
          (mapGet (build_pattern_map [['a','b']] ['a','b']) sig).getD [] :=
  word_in_unique_bucket [['a','b']] ['a','b'] ['a','b'] (by decide)

lemma parseLine_none (l : List Char) (c : Char) (hc : c ∈ l)
    (h : QueryPatternState.fromChar c = none) : parseLine l = none := by
  induction l with
  | nil => simp at hc
  | cons a as ih =>
    rcases List.mem_cons.mp hc with rfl | hmem
    · simp [parseLine, h]
    · rw [parseLine, ih hmem]
      cases QueryPatternState.fromChar a <;> rfl

lemma parseLines_none (ls : List (List Char)) (l : List Char) (hl : l ∈ ls)
    (h : parseLine l = none) : parseLines ls = none := by
  induction ls with
  | nil => simp at hl
  | cons x xs ih =>
    rcases List.mem_cons.mp hl with rfl | hmem
    · simp [parseLines, h]
    · rw [parseLines, ih hmem]
      cases parseLine x <;> rfl

/-- Counterexample to claim C4 as stated: a query block with a valid line
`GG` and a line `GZ` holding the unrecognized character `Z` parses to
`none` (the embedded panic), so the valid line's result is NOT produced —
the other lines are not unaffected. -/
theorem invalid_line_discards_valid_lines :
    parse_query_pattern [['G','G'], ['G','Z']] = none := by decide

/-- Claim C4 amended: an unrecognized character in any (trimmed,
non-empty) query-pattern line makes the whole parse fail — the Rust code
panics, so no per-line error recovery happens and no line's results are
produced. -/
theorem invalid_char_aborts_parse (input : List (List Char))
    (h : ∃ l ∈ (input.map trimLine).filter (fun l => !l.isEmpty),
      ∃ c ∈ l, QueryPatternState.fromChar c = none) :
    parse_query_pattern input = none := by
  obtain ⟨l, hl, c, hc, hnone⟩ := h
  exact parseLines_none _ l hl (parseLine_none l c hc hnone)

/-- Witness for the amended C4 at the concrete input line `GZ`. -/
theorem invalid_char_aborts_parse_witness :
    parse_query_pattern [['G','Z']] = none :=
  invalid_char_aborts_parse [['G','Z']] (by decide)

lemma firstPass_lengths (g s : List Char) :
    (firstPass g s).1.length = min g.length s.length ∧
      (firstPass g s).2.1.length = min g.length s.length ∧
      (firstPass g s).2.2.length = min g.length s.length := by
  induction g generalizing s with
  | nil => cases s <;> simp [firstPass]
  | cons x xs ih =>
    cases s with
    | nil => simp [firstPass]
    | cons a as =>
      rw [firstPass_cons]
      have := ih as
      by_cases hxa : x = a
      · rw [if_pos hxa]
        simp_all [Nat.succ_min_succ]
      · rw [if_neg hxa]
        simp_all [Nat.succ_min_succ]

lemma secondPass_length (g : List Char) (p : List PatternState) (s : List Char) :
    (secondPass g p s).1.length = min g.length p.length := by
  induction g generalizing p s with
  | nil => simp [secondPass_nil]
  | cons x xs ih =>
    cases p with
    | nil => simp [secondPass_nilp]
    | cons ph pt =>
      by_cases hx : x = consumedChar
      · rw [secondPass_cons_consumed x xs ph pt s hx]
        simp [ih, Nat.succ_min_succ]
      · cases hf : s.findIdx? (fun c => c == x) with
        | none =>
          rw [secondPass_cons_none x xs ph pt s hx hf]
          simp [ih, Nat.succ_min_succ]
        | some pos =>
          rw [secondPass_cons_some x xs ph pt s pos hx hf]
          simp [ih, Nat.succ_min_succ]

lemma calculate_pattern_length (g s : List Char) :
    (calculate_pattern g s).length = min g.length s.length := by
  have h1 := firstPass_lengths g s
  simp only [calculate_pattern, secondPass_length]
  omega

lemma mapGet_build_is_key (wordlist : List (List Char)) (solution : List Char)
    (sig : List PatternState)
    (h : ∀ w ∈ wordlist, calculate_pattern w solution ≠ sig) :
    mapGet (build_pattern_map wordlist solution) sig = none := by
  rw [build_pattern_map]
  have : ∀ (m₀ : List (List PatternState × List (List Char))),
      mapGet m₀ sig = none →
      mapGet (wordlist.foldl
        (fun m w => insertWord m (calculate_pattern w solution) w) m₀) sig =
        none := by
    intro m₀ hm₀
    induction wordlist generalizing m₀ with
    | nil => exact hm₀
    | cons w ws ih =>
      rw [List.foldl_cons]
      refine ih (fun w' hw' => h w' (List.mem_cons_of_mem w hw')) _ ?_
      rw [mapGet_insertWord]
      rw [if_neg (fun hx => h w (List.mem_cons_self w ws) hx.symm)]
      exact hm₀
  exact this [] rfl

lemma resolve_of_no_key (query : List QueryPatternState)
    (m : List (List PatternState × List (List Char)))
    (h : ∀ sig ∈ expand_query_pattern query, mapGet m sig = none) :
    resolve_query query m = [] := by
  rw [resolve_query]
  have : ∀ (sigs : List (List PatternState)),
      (∀ sig ∈ sigs, mapGet m sig = none) →
      sigs.foldl
        (fun sols sig =>
          match mapGet m sig with
          | some ws => sols ++ ws
          | none => sols) [] = [] := by
    intro sigs hsigs
    induction sigs with
    | nil => rfl
    | cons x xs ih =>
      rw [List.foldl_cons, hsigs x (List.mem_cons_self x xs)]
      exact ih (fun sig hsig => hsigs sig (List.mem_cons_of_mem x hsig))
  exact this _ h

lemma resolve_mismatch_aux (query : List QueryPatternState)
    (wordlist : List (List Char)) (solution : List Char)
    (hws : ∀ w ∈ wordlist, w.length = solution.length)
    (hq : query.length ≠ solution.length) :
    resolve_query query (build_pattern_map wordlist solution) = [] := by
  refine resolve_of_no_key query _ (fun sig hsig => ?_)
  refine mapGet_build_is_key wordlist solution sig (fun w hw heq => ?_)
  have hlen : sig.length = query.length := by
    have := expand_aux_mem_length query [[]] 0 (by simp) sig
      (by rwa [expand_eq_foldl] at hsig)
    simpa using this
  have hwlen : (calculate_pattern w solution).length = solution.length := by
    rw [calculate_pattern_length, hws w hw]
    simp
  rw [heq, hlen] at hwlen
  exact hq hwlen

/-- Claim C10: resolving a query pattern whose length differs from the
solution's length against an index built from length-filtered words
returns the empty word list without any error: expanded signatures have
the pattern's length while every index key has the solution's length. -/
theorem resolve_length_mismatch_empty (query : List QueryPatternState)
    (wordlist : List (List Char)) (solution : List Char)
    (hws : ∀ w ∈ wordlist, w.length = solution.length)
    (hq : query.length ≠ solution.length) :
    resolve_query query (build_pattern_map wordlist solution) = [] :=
  resolve_mismatch_aux query wordlist solution hws hq

/-- Witness for C10: a length-1 pattern against the length-2 solution
`"ab"`. -/
theorem resolve_length_mismatch_empty_witness :
    resolve_query [QueryPatternState.Base PatternState.Green]
      (build_pattern_map [['a','b']] ['a','b']) = [] :=
  resolve_length_mismatch_empty [QueryPatternState.Base PatternState.Green]
    [['a','b']] ['a','b'] (by decide) (by decide)

/-- Counterexample to claim C5 as stated: with solution `"ab"` (length
2), the length-3 query line `GGG` is parsed successfully — no rejection
or diagnostic anywhere — and resolves silently to the empty result. -/
theorem length_mismatch_not_rejected :
    parse_query_pattern [['G','G','G']] =
        some [[QueryPatternState.Base PatternState.Green,
          QueryPatternState.Base PatternState.Green,
          QueryPatternState.Base PatternState.Green]] ∧
      resolve_query
        [QueryPatternState.Base PatternState.Green,
          QueryPatternState.Base PatternState.Green,
          QueryPatternState.Base PatternState.Green]
        (build_pattern_map [['a','b']] ['a','b']) = [] := by
  constructor <;> decide

/-- Claim C5 amended: query patterns whose length differs from the
solution's are NOT rejected; parsing accepts them (no length check
exists) and resolution silently yields the empty word list, reported as
a normal no-solutions outcome. -/
theorem length_mismatch_silently_empty (input : List (List Char))
    (qps : List (List QueryPatternState)) (qp : List QueryPatternState)
    (wordlist : List (List Char)) (solution : List Char)
    (_hp : parse_query_pattern input = some qps) (_hqp : qp ∈ qps)
    (hlen : qp.length ≠ solution.length)
    (hws : ∀ w ∈ wordlist, w.length = solution.length) :
    resolve_query qp (build_pattern_map wordlist solution) = [] :=
  resolve_mismatch_aux qp wordlist solution hws hlen

/-- Witness for the amended C5: the parsed length-1 pattern `Y` against
the length-2 solution `"ab"`. -/
theorem length_mismatch_silently_empty_witness :
    resolve_query [QueryPatternState.Base PatternState.Yellow]
      (build_pattern_map [['a','b']] ['a','b']) = [] :=
  length_mismatch_silently_empty [['Y']]
    [[QueryPatternState.Base PatternState.Yellow]]
    [QueryPatternState.Base PatternState.Yellow] [['a','b']] ['a','b']
    (by decide) (by decide) (by decide) (by decide)
